import Mathlib

/-!
Verification of the signal scoring engine and backtest simulator of the
voltwake/toolkit repository.

The development shallowly embeds the JavaScript sources:
* namespace `Signal` embeds `src/signal.js` (live indicator library,
  multi-factor scorer, weighted aggregation);
* namespace `Backtest` embeds the backtest tool (`src/unnamed/part_002`:
  indicator series, signal time-series generator, trade simulator).

Modelling conventions:
* JavaScript numbers are modelled as exact rationals (`ℚ`); the sources use
  only field arithmetic and comparisons except for `Math.sqrt`, so every
  definition that needs a square root is parameterized over an arbitrary
  function `sqrt : ℚ → ℚ` standing for `Math.sqrt`.  Theorems hold for every
  such function (with explicitly stated hypotheses such as `sqrt 0 = 0` where
  the behaviour of the real square root matters).
* `Math.round x` is modelled as `⌊x + 1/2⌋` (JavaScript rounds halves toward
  positive infinity).
* optional / possibly-`undefined` inputs are modelled with `Option`.
* string formatting (`toFixed`, timestamps) is not modelled; trades record the
  underlying numeric values and candle indices instead (the source stores
  `entryTime`/`exitTime` as the formatted timestamps of the entry and exit
  candles).
-/

/-- A price candle: timestamp, open, high, low, close, volume.  Field names
follow the source objects `{ts, o, h, l, c, vol}`. -/
structure Candle where
  ts : ℕ
  o : ℚ
  h : ℚ
  l : ℚ
  c : ℚ
  vol : ℚ
deriving DecidableEq, Repr

/-- Placeholder candle used as the default value of total index lookups that
are only evaluated at indices proven to be in range. -/
def cDefault : Candle := ⟨0, 0, 0, 0, 0, 0⟩

/-- One step of Wilder's smoothing, shared by both RSI implementations in the
repository: state is the pair (average gain, average loss) and `ch` is the next
close-to-close change.  Mirrors
`avg = (avg*(period-1) ± change)/period` from the sources. -/
def rsiStep (period : ℕ) (s : ℚ × ℚ) (ch : ℚ) : ℚ × ℚ :=
  if ch > 0 then ((s.1 * ((period : ℚ) - 1) + ch) / (period : ℚ), s.2 * ((period : ℚ) - 1) / (period : ℚ))
  else (s.1 * ((period : ℚ) - 1) / (period : ℚ), (s.2 * ((period : ℚ) - 1) - ch) / (period : ℚ))

/-- RSI value from an (average gain, average loss) pair, with the
division-by-zero guard of the sources: `avgLoss == 0` yields 100. -/
def rsiVal (g l : ℚ) : ℚ :=
  if l = 0 then 100 else 100 - 100 / (1 + g / l)

/-- JavaScript `Math.round`: round half toward positive infinity. -/
def jround (x : ℚ) : ℤ := ⌊x + 1/2⌋

/-- Rounding to two decimal places, with the tie rule of `Math.round`
(halves round toward positive infinity), as used by the aggregate score. -/
def round2 (x : ℚ) : ℚ := ((jround (x * 100) : ℤ) : ℚ) / 100

/-- The zero function, used to instantiate the abstract square root in closed
statements whose computations only ever take the square root of 0. -/
def sqrtZero : ℚ → ℚ := fun _ => 0

namespace Signal

/-- Output of `calcMACD` in signal.js: `{macd, signal, hist}`. -/
structure MACDVal where
  macd : ℚ
  signal : ℚ
  hist : ℚ
deriving DecidableEq, Repr

/-- Bollinger band output of `calcBollinger` in signal.js.  `percentB` is
`none` when the band width is zero: the source divides by `4*std` and a zero
standard deviation makes the JavaScript computation produce NaN (the numerator
is then also zero because the last close lies inside the window), on which
every band comparison is false. -/
structure BB where
  upper : ℚ
  middle : ℚ
  lower : ℚ
  percentB : Option ℚ
deriving DecidableEq, Repr

/-- The `data` object assembled by `collectData` in signal.js.  Every field is
independently optional: a failed fetch leaves it `undefined`.  `longShortCurrent`
and `longShortPrev` are additionally treated as absent when 0 because the
source tests them with JavaScript truthiness. -/
structure MarketData where
  fundingRate : Option ℚ := none
  fundingHistory : Option (List ℚ) := none
  longShortCurrent : Option ℚ := none
  longShortPrev : Option ℚ := none
  fearGreed : Option ℤ := none
  candles : Option (List Candle) := none
  liqLong : Option ℚ := none
  liqShort : Option ℚ := none
deriving DecidableEq

/-- Per-factor scores produced by `scoreSignals`; a `none` field means the
factor was not recorded on the `scores` object.  All recorded values are
integer literals in the source, hence `ℤ`. -/
structure Scores where
  funding : Option ℤ := none
  fundingTrend : Option ℤ := none
  longShort : Option ℤ := none
  fearGreed : Option ℤ := none
  rsi : Option ℤ := none
  macd : Option ℤ := none
  bollinger : Option ℤ := none
  liquidation : Option ℤ := none
deriving DecidableEq

/-- `calcRSI(candles, period = 14)` from signal.js: returns the neutral value
50 when fewer than `period + 1` candles exist, otherwise Wilder's smoothing
over the close-to-close changes. -/
def calcRSI (candles : List Candle) (period : ℕ) : ℚ :=
  if candles.length < period + 1 then 50
  else
    let changes := List.zipWith (fun a b => b.c - a.c) candles candles.tail
    let g0 := ((changes.take period).map (fun ch => if ch > 0 then ch else 0)).sum / (period : ℚ)
    let l0 := ((changes.take period).map (fun ch => if ch > 0 then 0 else -ch)).sum / (period : ℚ)
    let s := (changes.drop period).foldl (rsiStep period) (g0, l0)
    rsiVal s.1 s.2

/-- `calcEMA(values, period)` from signal.js: seed `values[0]`, recurrence
`ema = values[i]*k + ema*(1-k)` with `k = 2/(period+1)`.  The source never
calls it on an empty array; the empty case returns 0. -/
def calcEMA (values : List ℚ) (period : ℕ) : ℚ :=
  match values with
  | [] => 0
  | v :: rest =>
      rest.foldl (fun e x => x * (2 / ((period : ℚ) + 1)) + e * (1 - 2 / ((period : ℚ) + 1))) v

/-- One iteration of the EMA(12)/EMA(26) loop inside `calcMACD` of signal.js:
state is (ema12, ema26, macd line so far) and `p` is the next close paired
with its enumeration index over the tail (the source loop index is `p.1 + 1`,
so the source's collection condition `i ≥ 25` reads `p.1 ≥ 24`). -/
def macdStep (s : ℚ × ℚ × List ℚ) (p : ℕ × ℚ) : ℚ × ℚ × List ℚ :=
  let e12 := p.2 * (2/13) + s.1 * (11/13)
  let e26 := p.2 * (2/27) + s.2.1 * (25/27)
  (e12, e26, if 24 ≤ p.1 then s.2.2 ++ [e12 - e26] else s.2.2)

/-- The MACD line collected inside `calcMACD` of signal.js: running EMA(12)
and EMA(26) seeded at `closes[0]`, pushing `ema12 - ema26` for source loop
indices `i ≥ 25`. -/
def macdLineOf (closes : List ℚ) : List ℚ :=
  match closes with
  | [] => []
  | c0 :: rest => (rest.enum.foldl macdStep (c0, c0, [])).2.2

/-- `calcMACD(candles)` from signal.js.  Fewer than 26 candles: all three
outputs 0.  A MACD line shorter than 9: last MACD value with zero signal and
histogram.  Otherwise the signal is the EMA(9) of the MACD line (the source
inlines the identical recurrence with `k9 = 2/10 = 2/(9+1)`). -/
def calcMACD (candles : List Candle) : MACDVal :=
  if candles.length < 26 then ⟨0, 0, 0⟩
  else
    let line := macdLineOf (candles.map (·.c))
    if line.length < 9 then ⟨line.getLast?.getD 0, 0, 0⟩
    else
      let signal := calcEMA line 9
      let macd := line.getLast?.getD 0
      ⟨macd, signal, macd - signal⟩

/-- `calcBollinger(candles, period = 20)` from signal.js: simple moving
average and population standard deviation over the last `period` closes;
`none` when fewer than `period` candles exist.  `percentB` is `none` exactly
when the computed standard deviation is zero (JavaScript NaN case, see `BB`). -/
def calcBollinger (sqrt : ℚ → ℚ) (candles : List Candle) (period : ℕ) : Option BB :=
  if candles.length < period then none
  else
    let closes := (candles.drop (candles.length - period)).map (·.c)
    let sma := closes.sum / (period : ℚ)
    let variance := (closes.map (fun c => (c - sma) ^ 2)).sum / (period : ℚ)
    let std := sqrt variance
    let currentPrice := ((candles.getLast?).map (·.c)).getD 0
    some ⟨sma + 2 * std, sma, sma - 2 * std,
      if std = 0 then none else some ((currentPrice - (sma - 2 * std)) / (4 * std))⟩

/-- `scoreSignals(data)` from signal.js: maps each available raw metric
through its ordered threshold bands.  Only the numeric `scores` object is
modelled; the human-readable `details` strings are presentation. -/
def scoreSignals (sqrt : ℚ → ℚ) (data : MarketData) : Scores :=
  let funding : Option ℤ := data.fundingRate.map (fun fr =>
    if fr < -0.001 then (30 : ℤ) else if fr < -0.0003 then 15 else if fr < 0.0005 then 0
    else if fr < 0.001 then -15 else -30)
  let fundingTrend : Option ℤ :=
    match data.fundingHistory with
    | some fh =>
        if 3 ≤ fh.length then
          let recent := fh.take 3
          let older := fh.drop 3
          let recentAvg := recent.sum / (recent.length : ℚ)
          let olderAvg := if older.length = 0 then recentAvg else older.sum / (older.length : ℚ)
          some (if recentAvg < olderAvg ∧ recentAvg < 0 then (20 : ℤ)
            else if recentAvg < olderAvg then 10
            else if recentAvg > olderAvg ∧ recentAvg > 0.0008 then -20
            else if recentAvg > olderAvg then -10 else 0)
        else none
    | none => none
  let longShort : Option ℤ :=
    match data.longShortCurrent with
    | some ls =>
        if ls = 0 then none
        else
          let base : ℤ := if ls > 3.5 then -25 else if ls > 2.8 then -10
            else if ls < 1.2 then 25 else if ls < 1.8 then 10 else 0
          let adj : ℤ :=
            match data.longShortPrev with
            | some pv =>
                if pv = 0 then 0
                else if |ls - pv| > 0.3 then (if ls - pv > 0 then -5 else 5) else 0
            | none => 0
          some (base + adj)
    | none => none
  let fearGreed : Option ℤ := data.fearGreed.map (fun fg =>
    if fg ≤ 10 then (30 : ℤ) else if fg ≤ 25 then 15 else if fg ≤ 45 then 5
    else if fg ≤ 55 then 0 else if fg ≤ 75 then -5 else if fg ≤ 90 then -15 else -30)
  let rsiS : Option ℤ :=
    match data.candles with
    | some cs =>
        if 15 ≤ cs.length then
          let rsi := calcRSI cs 14
          some (if rsi < 20 then (30 : ℤ) else if rsi < 30 then 15 else if rsi < 45 then 5
            else if rsi > 80 then -30 else if rsi > 70 then -15 else if rsi > 55 then -5 else 0)
        else none
    | none => none
  let macdS : Option ℤ :=
    match data.candles with
    | some cs =>
        if 30 ≤ cs.length then
          let m := calcMACD cs
          some (if m.hist > 0 ∧ m.macd > 0 then (15 : ℤ) else if m.hist > 0 then 10
            else if m.hist < 0 ∧ m.macd < 0 then -15 else if m.hist < 0 then -10 else 0)
        else none
    | none => none
  let bollingerS : Option ℤ :=
    match data.candles with
    | some cs =>
        if 20 ≤ cs.length then
          match calcBollinger sqrt cs 20 with
          | some bb =>
              some (match bb.percentB with
                | some pb =>
                    if pb < 0 then (20 : ℤ) else if pb < 0.2 then 10
                    else if pb > 1 then -20 else if pb > 0.8 then -10 else 0
                | none => 0)
          | none => none
        else none
    | none => none
  let liquidation : Option ℤ :=
    match data.liqLong, data.liqShort with
    | some ll, some lsh =>
        let total := ll + lsh
        if total > 0 then
          let longPct := ll / total
          some (if longPct > 0.8 then (15 : ℤ) else if longPct > 0.6 then 5
            else if longPct < 0.2 then -15 else if longPct < 0.4 then -5 else 0)
        else none
    | _, _ => none
  ⟨funding, fundingTrend, longShort, fearGreed, rsiS, macdS, bollingerS, liquidation⟩

/-- Keys of the eight factors, in the iteration order of the `weights` object
in `aggregate`. -/
inductive FactorKey where
  | funding
  | fundingTrend
  | longShort
  | fearGreed
  | rsi
  | macd
  | bollinger
  | liquidation
deriving DecidableEq, Repr

instance : Fintype FactorKey :=
  ⟨⟨{.funding, .fundingTrend, .longShort, .fearGreed, .rsi, .macd, .bollinger, .liquidation}, by decide⟩,
   by intro k; cases k <;> decide⟩

/-- Field accessor for `Scores` by key. -/
def Scores.get (s : Scores) : FactorKey → Option ℤ
  | .funding => s.funding
  | .fundingTrend => s.fundingTrend
  | .longShort => s.longShort
  | .fearGreed => s.fearGreed
  | .rsi => s.rsi
  | .macd => s.macd
  | .bollinger => s.bollinger
  | .liquidation => s.liquidation

/-- The per-factor weights of `aggregate` in signal.js. -/
def factorWeight : FactorKey → ℚ
  | .funding => 15
  | .fundingTrend => 10
  | .longShort => 15
  | .fearGreed => 15
  | .rsi => 15
  | .macd => 10
  | .bollinger => 10
  | .liquidation => 10

/-- `Object.entries(weights)` iteration order in `aggregate`. -/
def keyOrder : List FactorKey :=
  [.funding, .fundingTrend, .longShort, .fearGreed, .rsi, .macd, .bollinger, .liquidation]

/-- `aggregate(scores)` from signal.js: accumulate `score*weight` and the
weight over the present factors, return 0 when the total weight is 0, else
`Math.round(totalScore / totalWeight * 100) / 100`. -/
def aggregate (s : Scores) : ℚ :=
  let acc := keyOrder.foldl
    (fun (acc : ℚ × ℚ) k =>
      match s.get k with
      | some v => (acc.1 + (v : ℚ) * factorWeight k, acc.2 + factorWeight k)
      | none => acc)
    (0, 0)
  if acc.2 = 0 then 0 else ((jround (acc.1 / acc.2 * 100) : ℤ) : ℚ) / 100

/-- The keys of the factors actually present on a `Scores` object. -/
def presentKeys (s : Scores) : List FactorKey :=
  keyOrder.filter (fun k => (s.get k).isSome)

/-- The aggregation as the specification words it: the weighted mean
`Σ score·weight / Σ weight` over only the present factors, rounded to two
decimal places, and 0 by convention when no factor is present. -/
def specAggregate (s : Scores) : ℚ :=
  let ks := presentKeys s
  if ks = [] then 0
  else round2 (((ks.map (fun k => (((s.get k).getD 0 : ℤ) : ℚ) * factorWeight k)).sum) /
    ((ks.map factorWeight).sum))

end Signal

namespace Backtest

/-- One element of the MACD series in the backtest tool:
`{macd, signal, hist}` per index. -/
structure MACDEntry where
  macd : ℚ
  signal : ℚ
  hist : ℚ
deriving DecidableEq, Repr

/-- One element of the Bollinger series in the backtest tool.  Unlike the live
scorer's version, the backtest source guards the division: a zero standard
deviation yields `percentB = 0.5`. -/
structure BBEntry where
  upper : ℚ
  middle : ℚ
  lower : ℚ
  percentB : ℚ
deriving DecidableEq, Repr

/-- One entry of the signal time-series: candle index, timestamp, close price
and normalized score (`{idx, ts, price, score}` in the source; the derived
display fields `rsi`, `macdHist`, `bbPctB`, `reasons` are presentation). -/
structure Sig where
  idx : ℕ
  ts : ℕ
  price : ℚ
  score : ℚ
deriving DecidableEq, Repr

/-- Position side. -/
inductive Side where
  | long
  | short
deriving DecidableEq, Repr

/-- Exit reason of a recorded trade (the source stores these as the display
strings for stop-loss, take-profit, signal reversal and end of backtest). -/
inductive Reason where
  | stopLoss
  | takeProfit
  | signalReversal
  | endOfData
deriving DecidableEq, Repr

/-- An open position: `{side, entry, entryIdx, score}` in the source. -/
structure Position where
  side : Side
  entry : ℚ
  entryIdx : ℕ
  score : ℚ
deriving DecidableEq, Repr

/-- A recorded trade.  `entryIdx`/`exitIdx` are the indices of the candles
whose data the source's `entryTime`/`exitTime`/`exit` fields record; `pnl` is
the percentage P&L before string formatting; `holdBars` mirrors the source
field of the same name. -/
structure Trade where
  side : Side
  entry : ℚ
  exit : ℚ
  pnl : ℚ
  reason : Reason
  entryIdx : ℕ
  exitIdx : ℕ
  holdBars : ℤ
deriving DecidableEq, Repr

/-- The mutable state of the `runBacktest` loop. -/
structure BTState where
  trades : List Trade
  position : Option Position
  totalPnl : ℚ
  wins : ℕ
  losses : ℕ
  maxDrawdown : ℚ
  peak : ℚ
  equity : ℚ
deriving DecidableEq, Repr

/-- Result of `runBacktest`: the trade ledger and the numeric summary
statistics (the remaining stats fields of the source are string renderings of
these numbers). -/
structure BTResult where
  trades : List Trade
  totalTrades : ℕ
  wins : ℕ
  losses : ℕ
  totalPnl : ℚ
  maxDrawdown : ℚ
deriving DecidableEq, Repr

/-- `calcRSI(closes, period = 14)` from the backtest tool: `null` for fewer
than `period + 1` closes, otherwise a series of length `closes.length + 1`
holding `period + 1` leading `null`s followed by Wilder's-smoothing RSI values
(the source pushes the RSI computed at close `i` at series position `i + 1`). -/
def calcRSI (closes : List ℚ) (period : ℕ) : Option (List (Option ℚ)) :=
  if closes.length < period + 1 then none
  else
    let deltas := List.zipWith (fun a b => b - a) closes closes.tail
    let g0 := ((deltas.take period).map (fun ch => if ch > 0 then ch else 0)).sum / (period : ℚ)
    let l0 := ((deltas.take period).map (fun ch => if ch > 0 then 0 else -ch)).sum / (period : ℚ)
    let states := (deltas.drop period).scanl (rsiStep period) (g0, l0)
    some (List.replicate (period + 1) none ++ states.map (fun s => some (rsiVal s.1 s.2)))

/-- `calcEMASeries(values, period)` from the backtest tool: seed `values[0]`,
then the EMA recurrence, one output per input.  Empty input yields the empty
series (the source is never called on an empty array). -/
def calcEMASeries (values : List ℚ) (period : ℕ) : List ℚ :=
  match values with
  | [] => []
  | v :: rest =>
      rest.scanl (fun e x => x * (2 / ((period : ℚ) + 1)) + e * (1 - 2 / ((period : ℚ) + 1))) v

/-- `calcMACDSeries(closes)` from the backtest tool: elementwise
EMA(12) − EMA(26), signal = EMA(9) of the MACD line, histogram = difference. -/
def calcMACDSeries (closes : List ℚ) : List MACDEntry :=
  let ema12 := calcEMASeries closes 12
  let ema26 := calcEMASeries closes 26
  let macdLine := List.zipWith (fun a b => a - b) ema12 ema26
  let signal := calcEMASeries macdLine 9
  List.zipWith (fun v s => MACDEntry.mk v s (v - s)) macdLine signal

/-- `calcBollingerSeries(closes, period = 20)` from the backtest tool: `null`
for the first `period - 1` indices; afterwards SMA ± 2 population standard
deviations over the trailing window, with `percentB = 0.5` when the standard
deviation is not positive (the guarded division `std > 0 ? … : 0.5`). -/
def calcBollingerSeries (sqrt : ℚ → ℚ) (closes : List ℚ) (period : ℕ) : List (Option BBEntry) :=
  (List.range closes.length).map fun i =>
    if i < period - 1 then none
    else
      let slice := (closes.take (i + 1)).drop (i + 1 - period)
      let sma := slice.sum / (period : ℚ)
      let std := sqrt ((slice.map (fun c => (c - sma) ^ 2)).sum / (period : ℚ))
      some ⟨sma + 2 * std, sma, sma - 2 * std,
        if std > 0 then (closes.getD i 0 - (sma - 2 * std)) / (4 * std) else 1/2⟩

/-- The raw combined factor score of `generateSignals` at candle index `i`:
the `score` accumulator of the loop body before the doubling-and-clamping
normalization.  The source computes the indicator series once before the loop;
they are pure functions of the closes, recomputed here for each index. -/
def sigScoreRaw (sqrt : ℚ → ℚ) (candles : List Candle) (i : ℕ) : ℚ :=
  let closes := candles.map (·.c)
  let rsiSeries := (calcRSI closes 14).getD []
  let macdSeries := calcMACDSeries closes
  let bbSeries := calcBollingerSeries sqrt closes 20
  let s1 : ℚ :=
    match rsiSeries.getD i none with
    | none => 0
    | some rsi =>
        if rsi < 20 then 30 else if rsi < 30 then 15 else if rsi < 45 then 5
        else if rsi > 80 then -30 else if rsi > 70 then -15 else if rsi > 55 then -5 else 0
  let m := macdSeries.getD i ⟨0, 0, 0⟩
  let s2 : ℚ :=
    if m.hist > 0 ∧ m.macd > 0 then 15 else if m.hist > 0 then 10
    else if m.hist < 0 ∧ m.macd < 0 then -15 else if m.hist < 0 then -10 else 0
  let s3 : ℚ :=
    if 0 < i then
      let pm := macdSeries.getD (i - 1) ⟨0, 0, 0⟩
      (if pm.hist ≤ 0 ∧ m.hist > 0 then 10 else 0) + (if pm.hist ≥ 0 ∧ m.hist < 0 then -10 else 0)
    else 0
  let s4 : ℚ :=
    match bbSeries.getD i none with
    | none => 0
    | some bb =>
        if bb.percentB < 0 then 20 else if bb.percentB < 0.15 then 10
        else if bb.percentB > 1 then -20 else if bb.percentB > 0.85 then -10 else 0
  let s5 : ℚ :=
    if 50 ≤ i then
      let ema20 := ((closes.take (i + 1)).drop (i - 19)).sum / 20
      let ema50 := ((closes.take (i + 1)).drop (i - 49)).sum / 50
      if closes.getD i 0 > ema20 ∧ ema20 > ema50 then 10
      else if closes.getD i 0 < ema20 ∧ ema20 < ema50 then -10 else 0
    else 0
  s1 + s2 + s3 + s4 + s5

/-- `generateSignals(candles)` from the backtest tool: one signal per candle
index from 30 to the end, scored by `sigScoreRaw` doubled and clamped to
[-100, 100] (`Math.max(-100, Math.min(100, score * 2))`). -/
def generateSignals (sqrt : ℚ → ℚ) (candles : List Candle) : List Sig :=
  (List.range (candles.length - 30)).map fun j =>
    let i := 30 + j
    { idx := i
      ts := (candles.getD i cDefault).ts
      price := (candles.map (·.c)).getD i 0
      score := max (-100) (min 100 (sigScoreRaw sqrt candles i * 2)) }

/-- Percentage P&L of a position at a price, per side. -/
def pnlPctOf (p : Position) (price : ℚ) : ℚ :=
  match p.side with
  | .long => (price - p.entry) / p.entry
  | .short => (p.entry - price) / p.entry

/-- The common close-and-record block of the `runBacktest` loop (the source
repeats it verbatim for the stop-loss/take-profit exit and the
signal-reversal exit): append the trade, update totals, wins/losses and the
running equity / peak / max-drawdown, clear the position. -/
def recordClose (st : BTState) (p : Position) (pnlPct : ℚ) (reason : Reason)
    (exitPrice : ℚ) (exitIdx : ℕ) (sigIdx : ℕ) : BTState :=
  let pnl := pnlPct * 100
  let equity := st.equity + pnl
  let peak := if equity > st.peak then equity else st.peak
  let dd := peak - equity
  let maxDrawdown := if dd > st.maxDrawdown then dd else st.maxDrawdown
  { trades := st.trades ++
      [⟨p.side, p.entry, exitPrice, pnl, reason, p.entryIdx, exitIdx, (sigIdx : ℤ) - (p.entryIdx : ℤ)⟩]
    position := none
    totalPnl := st.totalPnl + pnl
    wins := if pnl > 0 then st.wins + 1 else st.wins
    losses := if pnl > 0 then st.losses else st.losses + 1
    maxDrawdown := maxDrawdown
    peak := peak
    equity := equity }

/-- The entry block of the `runBacktest` loop (`if (!position) …`): open a
long above the entry threshold, a short below its negation, else stay flat.
`entryIdx` is `sig.idx + LOOKFORWARD` with `LOOKFORWARD = 1`. -/
def tryEntry (st : BTState) (sig : Sig) (execPrice : ℚ) : BTState :=
  match st.position with
  | some _ => st
  | none =>
      if sig.score ≥ 20 then
        { st with position := some ⟨.long, execPrice, sig.idx + 1, sig.score⟩ }
      else if sig.score ≤ -20 then
        { st with position := some ⟨.short, execPrice, sig.idx + 1, sig.score⟩ }
      else st

/-- The body of one `runBacktest` loop iteration given the next bar's open
price: stop-loss/take-profit first (a hit `continue`s past the entry block),
then signal-reversal close (falling through to the entry block), then entry. -/
def btStepCore (st : BTState) (sig : Sig) (execPrice : ℚ) : BTState :=
  match st.position with
  | none => tryEntry st sig execPrice
  | some p =>
      let pnlPct := pnlPctOf p execPrice
      if pnlPct ≤ -(3/100) ∨ pnlPct ≥ 6/100 then
        recordClose st p pnlPct (if pnlPct ≥ 6/100 then .takeProfit else .stopLoss)
          execPrice (sig.idx + 1) sig.idx
      else if (p.side = .long ∧ sig.score < -5) ∨ (p.side = .short ∧ sig.score > 5) then
        tryEntry (recordClose st p pnlPct .signalReversal execPrice (sig.idx + 1) sig.idx)
          sig execPrice
      else st

/-- One `runBacktest` loop iteration: look up the next candle
(`candles[sig.idx + LOOKFORWARD]`, skipping the iteration when absent) and
execute at its open price. -/
def btStep (candles : List Candle) (st : BTState) (sig : Sig) : BTState :=
  match candles[sig.idx + 1]? with
  | none => st
  | some nextCandle => btStepCore st sig nextCandle.o

/-- Initial state of the `runBacktest` loop. -/
def initState : BTState := ⟨[], none, 0, 0, 0, 0, 0, 0⟩

/-- The forced close after the `runBacktest` loop: a still-open position is
closed at the last candle's close price with reason end-of-data.  Note the
source updates `totalPnl` and the win/loss counters here but not the
equity / peak / max-drawdown accumulators. -/
def forceClose (st : BTState) (candles : List Candle) : BTState :=
  match st.position with
  | none => st
  | some p =>
      let lastPrice := ((candles.getLast?).map (·.c)).getD 0
      let pnlPct := pnlPctOf p lastPrice
      let pnl := pnlPct * 100
      { st with
        trades := st.trades ++
          [⟨p.side, p.entry, lastPrice, pnl, .endOfData, p.entryIdx, candles.length - 1,
            (candles.length : ℤ) - 1 - (p.entryIdx : ℤ)⟩]
        position := none
        totalPnl := st.totalPnl + pnl
        wins := if pnl > 0 then st.wins + 1 else st.wins
        losses := if pnl > 0 then st.losses else st.losses + 1 }

/-- `runBacktest(signals, candles)` from the backtest tool: fold the step over
all but the last `LOOKFORWARD = 1` signals, force-close any open position,
and assemble the result. -/
def runBacktest (signals : List Sig) (candles : List Candle) : BTResult :=
  let st := (signals.take (signals.length - 1)).foldl (btStep candles) initState
  let st2 := forceClose st candles
  { trades := st2.trades
    totalTrades := st2.wins + st2.losses
    wins := st2.wins
    losses := st2.losses
    totalPnl := st2.totalPnl
    maxDrawdown := st2.maxDrawdown }

/-- The backtest entry point's data-sufficiency gate (`main` in the backtest
tool): with fewer than 50 candles it reports insufficient data and returns
without running the simulation; otherwise it generates signals and runs the
backtest. -/
def backtestMain (sqrt : ℚ → ℚ) (candles : List Candle) : Option BTResult :=
  if candles.length < 50 then none
  else some (runBacktest (generateSignals sqrt candles) candles)

/-- Prefix sums of a pnl list starting from accumulated equity `acc`
(including the starting point); `prefixSums` starts from 0, so entry `k` is
the cumulative equity after the first `k` trades. -/
def prefixSumsFrom (acc : ℚ) : List ℚ → List ℚ
  | [] => [acc]
  | x :: xs => acc :: prefixSumsFrom (acc + x) xs

/-- Cumulative equity curve of a pnl sequence, starting at 0. -/
def prefixSums (l : List ℚ) : List ℚ := prefixSumsFrom 0 l

/-- Highest cumulative equity reached over a pnl sequence (at least the
starting equity 0). -/
def peakOf (l : List ℚ) : ℚ := (prefixSums l).foldl max 0

/-- The maximum drawdown as the specification words it: the largest
peak-to-current drop of cumulative equity, i.e. the maximum over every point
`k` of the trade sequence of (highest equity reached up to `k`) minus
(equity at `k`). -/
def specMaxDrawdown (l : List ℚ) : ℚ :=
  ((List.range (l.length + 1)).map
    (fun k => peakOf (l.take k) - (l.take k).sum)).foldl max 0

end Backtest


/-! ### Concrete inputs used by counterexamples and witnesses -/

/-- A constant candle at price 100. -/
def c100 : Candle := ⟨0, 100, 100, 100, 100, 0⟩

/-- 34 candles whose closes are 33 zeros followed by 1: a minimal series on
which the MACD signal line is already fully computed. -/
def candles34 : List Candle := List.replicate 33 ⟨0, 0, 0, 0, 0, 0⟩ ++ [⟨0, 1, 1, 1, 1, 0⟩]

/-- 32 constant candles: long enough for exactly two generated signals. -/
def candles32 : List Candle := List.replicate 32 c100

/-- 33 constant candles, paired with `sigsRev` below. -/
def candlesRev : List Candle := List.replicate 33 c100

/-- A signal sequence whose first signal opens a long and whose second
reverses hard to −30: the simulator closes the long by signal reversal and
opens a short on the very same bar. -/
def sigsRev : List Backtest.Sig := [⟨30, 0, 100, 30⟩, ⟨31, 0, 100, -30⟩, ⟨32, 0, 100, 0⟩]

/-- Candles for the drawdown counterexample: constant at 100 except the final
close drops to 90. -/
def candlesDD : List Candle := List.replicate 31 c100 ++ [⟨0, 100, 100, 90, 90, 0⟩]

/-- Signals for the drawdown counterexample: one long entry, then nothing, so
the position is force-closed at the final 90 close for a −10% loss. -/
def sigsDD : List Backtest.Sig := [⟨30, 0, 100, 30⟩, ⟨31, 0, 100, 0⟩]

/-! ### C1 -/

/-- Claim C1 is false as stated: on the run below, the simulator closes a
long position by signal reversal at bar 32 (first trade, `exitIdx = 32`) and
opens a new short position on that same bar 32 (second trade,
`entryIdx = 32`).  The source's signal-reversal branch lacks the `continue`
of the stop-loss/take-profit branch, so control falls through to the entry
block within the same loop iteration. -/
theorem C1_counterexample :
    (Backtest.runBacktest sigsRev candlesRev).trades =
      [⟨.long, 100, 100, 0, .signalReversal, 31, 32, 0⟩,
       ⟨.short, 100, 100, 0, .endOfData, 32, 32, 0⟩] := by
  norm_num [Backtest.runBacktest, Backtest.btStep, Backtest.btStepCore, Backtest.tryEntry,
    Backtest.recordClose, Backtest.forceClose, Backtest.initState, Backtest.pnlPctOf,
    sigsRev, candlesRev, c100, List.replicate, List.foldl]

/-- Claim C1 amended: with a position open at the start of a bar, the
simulator either leaves the state untouched (position kept, no trade), or it
appends exactly one closing trade for that position; after a stop-loss or
take-profit close the bar ends flat (no same-bar entry), and a position open
at the end of such a bar exists only after a signal-reversal close, entered at
the bar's execution index `sig.idx + 1`.  In particular a new position is
never opened while one is open. -/
theorem C1_amended (candles : List Candle) (st : Backtest.BTState) (sig : Backtest.Sig)
    (p : Backtest.Position) (hp : st.position = some p) :
    ((Backtest.btStep candles st sig).position = some p ∧
      (Backtest.btStep candles st sig).trades = st.trades) ∨
    (∃ t : Backtest.Trade,
      (Backtest.btStep candles st sig).trades = st.trades ++ [t] ∧
      t.entryIdx = p.entryIdx ∧
      ((t.reason = .stopLoss ∨ t.reason = .takeProfit) →
        (Backtest.btStep candles st sig).position = none) ∧
      (∀ p2, (Backtest.btStep candles st sig).position = some p2 →
        t.reason = .signalReversal ∧ p2.entryIdx = sig.idx + 1)) := by
  unfold Backtest.btStep
  cases hc : candles[sig.idx + 1]? with
  | none => exact Or.inl ⟨hp, rfl⟩
  | some nc =>
    simp only [Backtest.btStepCore, hp]
    by_cases h1 : Backtest.pnlPctOf p nc.o ≤ -(3/100) ∨ Backtest.pnlPctOf p nc.o ≥ 6/100
    · rw [if_pos h1]
      refine Or.inr ⟨⟨p.side, p.entry, nc.o, Backtest.pnlPctOf p nc.o * 100,
        if Backtest.pnlPctOf p nc.o ≥ 6/100 then .takeProfit else .stopLoss,
        p.entryIdx, sig.idx + 1, (sig.idx : ℤ) - (p.entryIdx : ℤ)⟩, ?_, rfl, ?_, ?_⟩
      · simp only [Backtest.recordClose]
      · intro _
        simp only [Backtest.recordClose]
      · intro p2 hp2
        simp [Backtest.recordClose] at hp2
    · rw [if_neg h1]
      by_cases h2 : (p.side = .long ∧ sig.score < -5) ∨ (p.side = .short ∧ sig.score > 5)
      · rw [if_pos h2]
        refine Or.inr ⟨⟨p.side, p.entry, nc.o, Backtest.pnlPctOf p nc.o * 100,
          .signalReversal, p.entryIdx, sig.idx + 1, (sig.idx : ℤ) - (p.entryIdx : ℤ)⟩, ?_, rfl, ?_, ?_⟩
        · simp only [Backtest.tryEntry, Backtest.recordClose]
          split_ifs <;> rfl
        · intro hr
          rcases hr with hr | hr <;> simp at hr
        · intro p2 hp2
          refine ⟨rfl, ?_⟩
          simp only [Backtest.tryEntry, Backtest.recordClose] at hp2
          split_ifs at hp2 <;> simp_all
          all_goals rw [← hp2]
      · rw [if_neg h2]
        exact Or.inl ⟨hp, rfl⟩

/-- Witness for `C1_amended` at a concrete open-position state and signal. -/
theorem C1_amended_witness :
    ((Backtest.btStep candlesRev
        ⟨[], some ⟨.long, 100, 31, 30⟩, 0, 0, 0, 0, 0, 0⟩ ⟨31, 0, 100, 0⟩).position =
          some ⟨.long, 100, 31, 30⟩ ∧
      (Backtest.btStep candlesRev
        ⟨[], some ⟨.long, 100, 31, 30⟩, 0, 0, 0, 0, 0, 0⟩ ⟨31, 0, 100, 0⟩).trades = []) ∨
    (∃ t : Backtest.Trade,
      (Backtest.btStep candlesRev
        ⟨[], some ⟨.long, 100, 31, 30⟩, 0, 0, 0, 0, 0, 0⟩ ⟨31, 0, 100, 0⟩).trades = [] ++ [t] ∧
      t.entryIdx = 31 ∧
      ((t.reason = .stopLoss ∨ t.reason = .takeProfit) →
        (Backtest.btStep candlesRev
          ⟨[], some ⟨.long, 100, 31, 30⟩, 0, 0, 0, 0, 0, 0⟩ ⟨31, 0, 100, 0⟩).position = none) ∧
      (∀ p2, (Backtest.btStep candlesRev
          ⟨[], some ⟨.long, 100, 31, 30⟩, 0, 0, 0, 0, 0, 0⟩ ⟨31, 0, 100, 0⟩).position = some p2 →
        t.reason = .signalReversal ∧ p2.entryIdx = 31 + 1)) :=
  C1_amended candlesRev ⟨[], some ⟨.long, 100, 31, 30⟩, 0, 0, 0, 0, 0, 0⟩ ⟨31, 0, 100, 0⟩
    ⟨.long, 100, 31, 30⟩ rfl

namespace Backtest

/-- Loop invariant of the `runBacktest` fold, at a stage where every signal
still to be processed has index at least `lo`: recorded trades close strictly
after they open and are never end-of-data trades; consecutive trades do not
overlap; an open position entered at most at bar `lo`, strictly inside the
candle range, and after the last recorded trade's exit. -/
def BTInv (candles : List Candle) (st : BTState) (lo : ℕ) : Prop :=
  (∀ t ∈ st.trades, t.entryIdx < t.exitIdx ∧ t.reason ≠ Reason.endOfData) ∧
  List.Chain' (fun a b => a.exitIdx ≤ b.entryIdx) st.trades ∧
  (∀ p, st.position = some p → p.entryIdx ≤ lo ∧ p.entryIdx < candles.length ∧
    ∀ l, st.trades.getLast? = some l → l.exitIdx ≤ p.entryIdx) ∧
  (st.position = none → ∀ l, st.trades.getLast? = some l → l.exitIdx ≤ lo + 1)

theorem BTInv.mono {candles : List Candle} {st : BTState} {lo lo2 : ℕ}
    (h : BTInv candles st lo) (hle : lo ≤ lo2) : BTInv candles st lo2 := by
  obtain ⟨h1, h2, h3, h4⟩ := h
  refine ⟨h1, h2, fun p hp => ?_, fun hp l hl => ?_⟩
  · obtain ⟨a, b, c⟩ := h3 p hp
    exact ⟨a.trans hle, b, c⟩
  · exact (h4 hp l hl).trans (by omega)

theorem btStep_inv {candles : List Candle} {st : BTState} {sig : Sig} {lo : ℕ}
    (h : BTInv candles st lo) (hlo : lo ≤ sig.idx) :
    BTInv candles (btStep candles st sig) (sig.idx + 1) := by
  obtain ⟨h1, h2, h3, h4⟩ := h
  unfold btStep
  cases hc : candles[sig.idx + 1]? with
  | none => exact BTInv.mono ⟨h1, h2, h3, h4⟩ (by omega)
  | some nc =>
    have hlen : sig.idx + 1 < candles.length := (List.getElem?_eq_some.1 hc).1
    cases hp : st.position with
    | none =>
      -- flat: only the entry block runs
      simp only [btStepCore, tryEntry, hp]
      have hflat := h4 hp
      split_ifs with hs1 hs2
      · refine ⟨h1, h2, fun p hpe => ?_, fun hpe => by simp at hpe⟩
        simp only [Option.some.injEq] at hpe
        rw [← hpe]
        exact ⟨le_refl _, hlen, fun l hl =>
          (hflat l hl).trans (show lo + 1 ≤ sig.idx + 1 by omega)⟩
      · refine ⟨h1, h2, fun p hpe => ?_, fun hpe => by simp at hpe⟩
        simp only [Option.some.injEq] at hpe
        rw [← hpe]
        exact ⟨le_refl _, hlen, fun l hl =>
          (hflat l hl).trans (show lo + 1 ≤ sig.idx + 1 by omega)⟩
      · exact BTInv.mono ⟨h1, h2, h3, fun _ l hl => hflat l hl⟩ (by omega)
    | some p =>
      simp only [btStepCore, hp]
      obtain ⟨hpl, hplen, hlast⟩ := h3 p hp
      have hnew : ∀ reason, reason ≠ Reason.endOfData →
          BTInv candles (recordClose st p (pnlPctOf p nc.o) reason nc.o (sig.idx + 1) sig.idx)
            (sig.idx + 1) := by
        intro reason hr
        unfold recordClose
        refine ⟨?_, ?_, fun q hq => by simp at hq, fun _ l hl => ?_⟩
        · intro t ht
          rcases List.mem_append.1 ht with ht | ht
          · exact h1 t ht
          · simp only [List.mem_singleton] at ht
            subst ht
            exact ⟨by show p.entryIdx < sig.idx + 1; omega, hr⟩
        · refine List.chain'_append.2 ⟨h2, List.chain'_singleton _, ?_⟩
          intro x hx y hy
          simp only [List.head?_cons, Option.mem_def, Option.some.injEq] at hy
          subst hy
          exact hlast x hx
        · simp only [List.getLast?_concat, Option.some.injEq] at hl
          subst hl
          exact Nat.le_succ _
      by_cases h5 : pnlPctOf p nc.o ≤ -(3/100) ∨ pnlPctOf p nc.o ≥ 6/100
      · rw [if_pos h5]
        refine hnew _ ?_
        split_ifs <;> simp
      · rw [if_neg h5]
        by_cases h6 : (p.side = Side.long ∧ sig.score < -5) ∨ (p.side = Side.short ∧ sig.score > 5)
        · rw [if_pos h6]
          have hcl := hnew Reason.signalReversal (by simp)
          obtain ⟨g1, g2, g3, g4⟩ := hcl
          set st2 := recordClose st p (pnlPctOf p nc.o) Reason.signalReversal nc.o (sig.idx + 1) sig.idx with hst2
          have hpos2 : st2.position = none := by rw [hst2]; rfl
          unfold tryEntry
          rw [hpos2]
          have hflat2 := g4 hpos2
          split_ifs with hs1 hs2
          · refine ⟨g1, g2, fun q hq => ?_, fun hq => by simp at hq⟩
            simp only [Option.some.injEq] at hq
            rw [← hq]
            refine ⟨le_refl _, hlen, fun l hl => ?_⟩
            simp only [hst2, recordClose, List.getLast?_concat, Option.some.injEq] at hl
            subst hl
            simp
          · refine ⟨g1, g2, fun q hq => ?_, fun hq => by simp at hq⟩
            simp only [Option.some.injEq] at hq
            rw [← hq]
            refine ⟨le_refl _, hlen, fun l hl => ?_⟩
            simp only [hst2, recordClose, List.getLast?_concat, Option.some.injEq] at hl
            subst hl
            simp
          · exact ⟨g1, g2, g3, g4⟩
        · rw [if_neg h6]
          refine ⟨h1, h2, fun q hq => ?_, fun hq => ?_⟩
          · rw [hp] at hq
            simp only [Option.some.injEq] at hq
            subst hq
            exact ⟨by omega, hplen, hlast⟩
          · rw [hp] at hq
            simp at hq

end Backtest

namespace Backtest

theorem foldl_btInv (candles : List Candle) :
    ∀ (sigs : List Sig) (st : BTState) (lo : ℕ),
      BTInv candles st lo →
      List.Chain' (fun a b => a.idx < b.idx) sigs →
      (∀ s, sigs.head? = some s → lo ≤ s.idx) →
      ∃ lo2, BTInv candles (sigs.foldl (btStep candles) st) lo2 := by
  intro sigs
  induction sigs with
  | nil => exact fun st lo h _ _ => ⟨lo, h⟩
  | cons s t ih =>
    intro st lo h hc hh
    have hlo : lo ≤ s.idx := hh s rfl
    have hstep := btStep_inv h hlo
    rcases List.chain'_cons'.1 hc with ⟨hhead, htail⟩
    refine ih (btStep candles st s) (s.idx + 1) hstep htail ?_
    intro s2 hs2
    have := hhead s2 hs2
    omega

theorem initState_inv (candles : List Candle) : BTInv candles initState 0 := by
  refine ⟨?_, ?_, ?_, ?_⟩ <;> simp [initState, BTInv]

end Backtest

/-- Claim C2 amended: in every run of the simulator on signals with strictly
increasing indices, every recorded trade has exit index at least its entry
index — strictly greater unless it is the final forced end-of-data close,
which can have exit index equal to its entry index when the entry happened on
the final bar — and trades never overlap: in ledger order each trade opens no
earlier than the previous one closed (the observable form of "at most one
open position at any bar"). -/
theorem C2_amended (signals : List Backtest.Sig) (candles : List Candle)
    (hmono : List.Chain' (fun a b => a.idx < b.idx) signals) :
    (∀ t ∈ (Backtest.runBacktest signals candles).trades,
      t.entryIdx ≤ t.exitIdx ∧ (t.reason ≠ Backtest.Reason.endOfData → t.entryIdx < t.exitIdx)) ∧
    List.Chain' (fun a b => a.exitIdx ≤ b.entryIdx) (Backtest.runBacktest signals candles).trades := by
  have hchain := hmono.take (signals.length - 1)
  obtain ⟨lo2, hinv⟩ := Backtest.foldl_btInv candles (signals.take (signals.length - 1))
    Backtest.initState 0 (Backtest.initState_inv candles) hchain (fun _ _ => Nat.zero_le _)
  set st := (signals.take (signals.length - 1)).foldl (Backtest.btStep candles)
    Backtest.initState with hst
  obtain ⟨h1, h2, h3, h4⟩ := hinv
  have hres : (Backtest.runBacktest signals candles).trades =
    (Backtest.forceClose st candles).trades := rfl
  rw [hres]
  unfold Backtest.forceClose
  cases hp : st.position with
  | none =>
    refine ⟨fun t ht => ?_, h2⟩
    obtain ⟨ha, hb⟩ := h1 t ht
    exact ⟨le_of_lt ha, fun _ => ha⟩
  | some p =>
    obtain ⟨hpl, hplen, hlast⟩ := h3 p hp
    constructor
    · intro t ht
      rcases List.mem_append.1 ht with ht | ht
      · obtain ⟨ha, hb⟩ := h1 t ht
        exact ⟨le_of_lt ha, fun _ => ha⟩
      · simp only [List.mem_singleton] at ht
        subst ht
        refine ⟨show p.entryIdx ≤ candles.length - 1 by omega, fun hne => ?_⟩
        exact absurd rfl hne
    · refine List.chain'_append.2 ⟨h2, List.chain'_singleton _, ?_⟩
      intro x hx y hy
      simp only [List.head?_cons, Option.mem_def, Option.some.injEq] at hy
      subst hy
      exact hlast x hx

set_option maxHeartbeats 4000000 in
set_option maxRecDepth 20000 in
/-- Claim C2 is false as stated: running the full pipeline (signal generation
followed by the simulator) on 32 constant candles opens a short at the last
bar and force-closes it at that same bar, producing a trade whose exit index
equals its entry index. -/
theorem C2_counterexample :
    (Backtest.runBacktest (Backtest.generateSignals sqrtZero candles32) candles32).trades =
      [⟨.short, 100, 100, 0, .endOfData, 31, 31, 0⟩] := by
  norm_num [Backtest.runBacktest, Backtest.btStep, Backtest.btStepCore, Backtest.tryEntry,
    Backtest.recordClose, Backtest.forceClose, Backtest.initState, Backtest.pnlPctOf,
    Backtest.generateSignals, Backtest.sigScoreRaw, Backtest.calcRSI, Backtest.calcEMASeries,
    Backtest.calcMACDSeries, Backtest.calcBollingerSeries, rsiStep, rsiVal, sqrtZero,
    candles32, c100, List.replicate, List.foldl, List.range, List.range.loop,
    List.scanl, List.zipWith, List.getD]

/-- Witness for `C2_amended` on a concrete monotone signal sequence. -/
theorem C2_amended_witness :
    (∀ t ∈ (Backtest.runBacktest sigsDD candlesDD).trades,
      t.entryIdx ≤ t.exitIdx ∧ (t.reason ≠ Backtest.Reason.endOfData → t.entryIdx < t.exitIdx)) ∧
    List.Chain' (fun a b => a.exitIdx ≤ b.entryIdx) (Backtest.runBacktest sigsDD candlesDD).trades :=
  C2_amended sigsDD candlesDD (by simp [sigsDD])

namespace Backtest

theorem prefixSumsFrom_concat (x : ℚ) :
    ∀ (l : List ℚ) (acc : ℚ),
      prefixSumsFrom acc (l ++ [x]) = prefixSumsFrom acc l ++ [acc + l.sum + x] := by
  intro l
  induction l with
  | nil =>
    intro acc
    simp [prefixSumsFrom]
  | cons y ys ih =>
    intro acc
    show acc :: prefixSumsFrom (acc + y) (ys ++ [x]) =
      (acc :: prefixSumsFrom (acc + y) ys) ++ [acc + (y :: ys).sum + x]
    rw [ih]
    have hx : acc + y + ys.sum + x = acc + (y :: ys).sum + x := by
      simp only [List.sum_cons]
      ring
    rw [hx]
    simp

theorem peakOf_concat (l : List ℚ) (x : ℚ) :
    peakOf (l ++ [x]) = max (peakOf l) (l.sum + x) := by
  unfold peakOf prefixSums
  rw [prefixSumsFrom_concat, List.foldl_append]
  simp

theorem specMaxDrawdown_concat (l : List ℚ) (x : ℚ) :
    specMaxDrawdown (l ++ [x]) =
      max (specMaxDrawdown l) (peakOf (l ++ [x]) - (l.sum + x)) := by
  unfold specMaxDrawdown
  have hlen : (l ++ [x]).length = l.length + 1 := by simp
  rw [hlen, List.range_succ, List.map_append, List.foldl_append]
  have hmap : (List.range (l.length + 1)).map
      (fun k => peakOf ((l ++ [x]).take k) - ((l ++ [x]).take k).sum) =
      (List.range (l.length + 1)).map (fun k => peakOf (l.take k) - (l.take k).sum) := by
    refine List.map_congr_left ?_
    intro k hk
    have hk2 : k ≤ l.length := by
      simp only [List.mem_range] at hk
      omega
    rw [List.take_append_of_le_length hk2]
  rw [hmap]
  have htake : (l ++ [x]).take (l.length + 1) = l ++ [x] := by
    have : (l ++ [x]).length = l.length + 1 := by simp
    rw [← this, List.take_length]
  simp [htake]

/-- Invariant of the `runBacktest` loop tying the running equity, peak and
max-drawdown accumulators to the pnl sequence of the trades recorded so far
(all of which close inside the loop, hence are never end-of-data trades). -/
def InvDD (st : BTState) : Prop :=
  st.equity = (st.trades.map (·.pnl)).sum ∧
  st.peak = peakOf (st.trades.map (·.pnl)) ∧
  st.maxDrawdown = specMaxDrawdown (st.trades.map (·.pnl)) ∧
  ∀ t ∈ st.trades, t.reason ≠ Reason.endOfData

theorem ite_gt_eq_max (a b : ℚ) : (if a > b then a else b) = max b a := by
  split_ifs with h
  · exact (max_eq_right h.le).symm
  · exact (max_eq_left (not_lt.1 h)).symm

theorem recordClose_invDD {st : BTState} {p : Position} {pct : ℚ} {reason : Reason}
    {ep : ℚ} {ei si : ℕ} (h : InvDD st) (hr : reason ≠ Reason.endOfData) :
    InvDD (recordClose st p pct reason ep ei si) := by
  obtain ⟨h1, h2, h3, h4⟩ := h
  unfold recordClose
  refine ⟨?_, ?_, ?_, ?_⟩
  · simp only [List.map_append, List.map_cons, List.map_nil, List.sum_append, List.sum_cons,
      List.sum_nil]
    rw [h1]
    ring
  · simp only [List.map_append, List.map_cons, List.map_nil]
    rw [peakOf_concat, ite_gt_eq_max, h1, h2]
  · simp only [List.map_append, List.map_cons, List.map_nil]
    rw [specMaxDrawdown_concat, ite_gt_eq_max, peakOf_concat, h1, h2, h3, ite_gt_eq_max]
  · intro t ht
    rcases List.mem_append.1 ht with ht | ht
    · exact h4 t ht
    · simp only [List.mem_singleton] at ht
      subst ht
      exact hr

theorem tryEntry_invDD {st : BTState} {sig : Sig} {ep : ℚ} (h : InvDD st) :
    InvDD (tryEntry st sig ep) := by
  obtain ⟨h1, h2, h3, h4⟩ := h
  unfold tryEntry
  cases st.position with
  | some p => exact ⟨h1, h2, h3, h4⟩
  | none => split_ifs <;> exact ⟨h1, h2, h3, h4⟩

theorem btStep_invDD {candles : List Candle} {st : BTState} {sig : Sig} (h : InvDD st) :
    InvDD (btStep candles st sig) := by
  unfold btStep
  cases hc : candles[sig.idx + 1]? with
  | none => exact h
  | some nc =>
    cases hp : st.position with
    | none =>
      simp only [btStepCore, hp]
      exact tryEntry_invDD h
    | some p =>
      simp only [btStepCore, hp]
      by_cases h5 : pnlPctOf p nc.o ≤ -(3/100) ∨ pnlPctOf p nc.o ≥ 6/100
      · rw [if_pos h5]
        refine recordClose_invDD h ?_
        split_ifs <;> simp
      · rw [if_neg h5]
        by_cases h6 : (p.side = Side.long ∧ sig.score < -5) ∨ (p.side = Side.short ∧ sig.score > 5)
        · rw [if_pos h6]
          exact tryEntry_invDD (recordClose_invDD h (by simp))
        · rw [if_neg h6]
          exact h

theorem foldl_invDD (candles : List Candle) :
    ∀ (sigs : List Sig) (st : BTState), InvDD st →
      InvDD (sigs.foldl (btStep candles) st) := by
  intro sigs
  induction sigs with
  | nil => exact fun st h => h
  | cons s t ih => exact fun st h => ih _ (btStep_invDD h)

theorem initState_invDD : InvDD initState := by
  refine ⟨rfl, ?_, ?_, by simp [initState]⟩
  · simp [initState, peakOf, prefixSums, prefixSumsFrom]
  · simp [initState, specMaxDrawdown, peakOf, prefixSums, prefixSumsFrom]

end Backtest

/-- Claim C3 is false as stated: on the run below the only trade is the final
forced end-of-data close at −10%, whose peak-to-current equity drop is 10, yet
the reported maximum drawdown is 0 — the source updates the equity / peak /
drawdown accumulators only in the two in-loop exit branches and not in the
forced-close block. -/
theorem C3_counterexample :
    (Backtest.runBacktest sigsDD candlesDD).maxDrawdown = 0 ∧
    (Backtest.runBacktest sigsDD candlesDD).trades.map (·.pnl) = [-10] ∧
    Backtest.specMaxDrawdown [(-10 : ℚ)] = 10 := by
  refine ⟨?_, ?_, ?_⟩
  · norm_num [Backtest.runBacktest, Backtest.btStep, Backtest.btStepCore, Backtest.tryEntry,
      Backtest.recordClose, Backtest.forceClose, Backtest.initState, Backtest.pnlPctOf,
      sigsDD, candlesDD, c100, List.replicate, List.foldl]
  · norm_num [Backtest.runBacktest, Backtest.btStep, Backtest.btStepCore, Backtest.tryEntry,
      Backtest.recordClose, Backtest.forceClose, Backtest.initState, Backtest.pnlPctOf,
      sigsDD, candlesDD, c100, List.replicate, List.foldl]
  · norm_num [Backtest.specMaxDrawdown, Backtest.peakOf, Backtest.prefixSums,
      Backtest.prefixSumsFrom, List.range_succ]

/-- Claim C3 amended: the reported maximum drawdown equals the largest
peak-to-current drop of cumulative equity over the trades closed inside the
simulation loop only — the final forced end-of-data close, when it occurs, is
excluded from the drawdown computation. -/
theorem C3_amended (signals : List Backtest.Sig) (candles : List Candle) :
    (Backtest.runBacktest signals candles).maxDrawdown =
      Backtest.specMaxDrawdown
        (((Backtest.runBacktest signals candles).trades.filter
          (fun t => decide (t.reason ≠ Backtest.Reason.endOfData))).map (·.pnl)) := by
  obtain ⟨h1, h2, h3, h4⟩ := Backtest.foldl_invDD candles
    (signals.take (signals.length - 1)) Backtest.initState Backtest.initState_invDD
  set st := (signals.take (signals.length - 1)).foldl (Backtest.btStep candles)
    Backtest.initState with hst
  have hfilter : st.trades.filter (fun t => decide (t.reason ≠ Backtest.Reason.endOfData)) =
      st.trades := by
    rw [List.filter_eq_self]
    intro t ht
    simpa using h4 t ht
  have hres : (Backtest.runBacktest signals candles).maxDrawdown =
      (Backtest.forceClose st candles).maxDrawdown := rfl
  have hrest : (Backtest.runBacktest signals candles).trades =
      (Backtest.forceClose st candles).trades := rfl
  rw [hres, hrest]
  unfold Backtest.forceClose
  cases hp : st.position with
  | none => rw [hfilter, ← h3]
  | some p =>
    simp only [List.filter_append]
    rw [hfilter]
    simp only [List.filter_cons, List.filter_nil]
    norm_num
    rw [← h3]

namespace Signal

theorem foldl_macdStep_length :
    ∀ (l : List (ℕ × ℚ)) (acc : ℚ × ℚ × List ℚ),
      ((l.foldl macdStep acc).2.2).length =
        acc.2.2.length + l.countP (fun p => decide (24 ≤ p.1)) := by
  intro l
  induction l with
  | nil => simp
  | cons p t ih =>
    intro acc
    rw [List.foldl_cons, ih, List.countP_cons]
    by_cases h : 24 ≤ p.1 <;> simp [macdStep, h] <;> omega

theorem countP_range_ge (c : ℕ) : ∀ n, (List.range n).countP (fun i => decide (c ≤ i)) = n - c := by
  intro n
  induction n with
  | zero => simp
  | succ n ih =>
    rw [List.range_succ, List.countP_append, ih]
    by_cases h : c ≤ n <;> simp [h] <;> omega

theorem macdLineOf_length (closes : List ℚ) :
    (macdLineOf closes).length = closes.length - 25 := by
  cases closes with
  | nil => simp [macdLineOf]
  | cons c0 rest =>
    unfold macdLineOf
    rw [foldl_macdStep_length]
    have h1 : rest.enum.countP (fun p => decide (24 ≤ p.1)) =
        (List.range rest.length).countP (fun i => decide (24 ≤ i)) := by
      rw [← List.enum_map_fst rest, List.countP_map]
      rfl
    rw [h1, countP_range_ge]
    simp only [List.length_cons, List.length_nil, Nat.zero_add]
    omega

end Signal

namespace Signal

theorem foldl_macdStep_zeros_low :
    ∀ (n k : ℕ) (acc : List ℚ), k + n ≤ 24 →
      (List.enumFrom k (List.replicate n (0:ℚ))).foldl macdStep (0, 0, acc) = (0, 0, acc) := by
  intro n
  induction n with
  | zero => intro k acc _; simp
  | succ n ih =>
    intro k acc hk
    rw [List.replicate_succ]
    have hstep : macdStep (0, 0, acc) (k, 0) = (0, 0, acc) := by
      simp [macdStep, show ¬(24 ≤ k) by omega]
    simp only [List.enumFrom, List.foldl_cons, hstep]
    exact ih (k + 1) acc (by omega)

theorem foldl_macdStep_zeros_high :
    ∀ (n k : ℕ) (acc : List ℚ), 24 ≤ k →
      (List.enumFrom k (List.replicate n (0:ℚ))).foldl macdStep (0, 0, acc) =
        (0, 0, acc ++ List.replicate n 0) := by
  intro n
  induction n with
  | zero => intro k acc _; simp
  | succ n ih =>
    intro k acc hk
    rw [List.replicate_succ]
    have hstep : macdStep (0, 0, acc) (k, 0) = (0, 0, acc ++ [0]) := by
      simp [macdStep, show (24 ≤ k) by omega]
    simp only [List.enumFrom, List.foldl_cons, hstep]
    rw [ih (k + 1) (acc ++ [0]) (by omega)]
    simp [List.replicate_succ]

theorem macdLineOf_cons (c0 : ℚ) (rest : List ℚ) :
    macdLineOf (c0 :: rest) = (rest.enum.foldl macdStep (c0, c0, [])).2.2 := rfl

theorem calcEMA_cons (v : ℚ) (rest : List ℚ) (p : ℕ) :
    calcEMA (v :: rest) p =
      rest.foldl (fun e x => x * (2 / ((p : ℚ) + 1)) + e * (1 - 2 / ((p : ℚ) + 1))) v := rfl

theorem calcEMA_zeros (k1 k2 : ℚ) :
    ∀ (n : ℕ), (List.replicate n (0:ℚ)).foldl (fun e x => x * k1 + e * k2) 0 = 0 := by
  intro n
  induction n with
  | zero => rfl
  | succ n ih =>
    rw [List.replicate_succ, List.foldl_cons]
    have h0 : (0:ℚ) * k1 + 0 * k2 = 0 := by ring
    rw [h0, ih]

theorem map_c_candles34 : candles34.map (·.c) = (0 : ℚ) :: (List.replicate 32 0 ++ [1]) := by
  unfold candles34
  simp only [List.map_append, List.map_replicate, List.map_cons, List.map_nil]
  rw [List.replicate_succ]
  rfl

theorem macdLineOf_candles34 :
    macdLineOf (candles34.map (·.c)) = List.replicate 8 0 ++ [28/351] := by
  rw [map_c_candles34, macdLineOf_cons]
  have hsplit : List.replicate 32 (0:ℚ) ++ [1] =
      (List.replicate 24 0 ++ List.replicate 8 0) ++ [1] := by
    rw [← List.replicate_add]
  rw [hsplit]
  have henum : ((List.replicate 24 (0:ℚ) ++ List.replicate 8 0) ++ [(1:ℚ)]).enum =
      (List.enumFrom 0 (List.replicate 24 (0:ℚ)) ++ List.enumFrom 24 (List.replicate 8 0)) ++
        List.enumFrom 32 [(1:ℚ)] := by
    show List.enumFrom 0 ((List.replicate 24 (0:ℚ) ++ List.replicate 8 0) ++ [(1:ℚ)]) = _
    rw [List.enumFrom_append, List.enumFrom_append]
    norm_num
  rw [henum, List.foldl_append, List.foldl_append]
  rw [foldl_macdStep_zeros_low 24 0 [] (by norm_num)]
  rw [foldl_macdStep_zeros_high 8 24 [] (by norm_num)]
  have hfin : List.enumFrom 32 [(1:ℚ)] = [(32, (1:ℚ))] := by simp [List.enumFrom]
  rw [hfin]
  simp only [List.foldl_cons, List.foldl_nil, List.nil_append]
  simp [macdStep, show (24:ℕ) ≤ 32 by norm_num]
  norm_num

/-- Claim C4 is false as stated: with exactly 34 closes (fewer than 35) the
signal line is already the fully computed EMA(9) of the MACD line — here
nonzero — not a zero/partial value.  The MACD line has `closes.length - 25`
entries, so the EMA(9) branch is taken as soon as 34 closes exist. -/
theorem C4_counterexample :
    candles34.length = 34 ∧ (Signal.calcMACD candles34).signal = 28/1755 := by
  refine ⟨by norm_num [candles34], ?_⟩
  unfold calcMACD
  rw [if_neg (by norm_num [candles34])]
  rw [macdLineOf_candles34]
  rw [if_neg (by norm_num)]
  show calcEMA (List.replicate 8 0 ++ [28/351]) 9 = 28/1755
  rw [show List.replicate 8 (0:ℚ) ++ [28/351] = 0 :: (List.replicate 7 0 ++ [28/351]) by
    rw [List.replicate_succ]; rfl]
  rw [calcEMA_cons, List.foldl_append, calcEMA_zeros]
  norm_num

end Signal

/-- Claim C4 amended: `calcMACD` returns all three outputs as zero when fewer
than 26 closes exist; with at least 26 but fewer than 34 closes it returns the
last MACD-line value with zero signal and histogram; and with 34 or more
closes (not 35) the signal line is the EMA(9) of the MACD line and the
histogram their difference. -/
theorem C4_amended (candles : List Candle) :
    (candles.length < 26 → Signal.calcMACD candles = ⟨0, 0, 0⟩) ∧
    (26 ≤ candles.length → candles.length < 34 →
      Signal.calcMACD candles =
        ⟨(Signal.macdLineOf (candles.map (·.c))).getLast?.getD 0, 0, 0⟩) ∧
    (34 ≤ candles.length →
      Signal.calcMACD candles =
        ⟨(Signal.macdLineOf (candles.map (·.c))).getLast?.getD 0,
         Signal.calcEMA (Signal.macdLineOf (candles.map (·.c))) 9,
         (Signal.macdLineOf (candles.map (·.c))).getLast?.getD 0 -
           Signal.calcEMA (Signal.macdLineOf (candles.map (·.c))) 9⟩) := by
  have hlen : (Signal.macdLineOf (candles.map (·.c))).length = candles.length - 25 := by
    rw [Signal.macdLineOf_length, List.length_map]
  refine ⟨fun h => ?_, fun h h2 => ?_, fun h => ?_⟩
  · simp only [Signal.calcMACD]
    rw [if_pos h]
  · simp only [Signal.calcMACD]
    rw [if_neg (by omega), if_pos (show (Signal.macdLineOf (candles.map (·.c))).length < 9 by omega)]
  · simp only [Signal.calcMACD]
    rw [if_neg (by omega),
      if_neg (show ¬(Signal.macdLineOf (candles.map (·.c))).length < 9 by omega)]

/-- Witness for `C4_amended` on concrete candle lists in each regime. -/
theorem C4_amended_witness :
    Signal.calcMACD (List.replicate 10 c100) = ⟨0, 0, 0⟩ ∧
    Signal.calcMACD (List.replicate 30 c100) =
      ⟨(Signal.macdLineOf ((List.replicate 30 c100).map (·.c))).getLast?.getD 0, 0, 0⟩ ∧
    Signal.calcMACD candles34 =
      ⟨(Signal.macdLineOf (candles34.map (·.c))).getLast?.getD 0,
       Signal.calcEMA (Signal.macdLineOf (candles34.map (·.c))) 9,
       (Signal.macdLineOf (candles34.map (·.c))).getLast?.getD 0 -
         Signal.calcEMA (Signal.macdLineOf (candles34.map (·.c))) 9⟩ :=
  ⟨(C4_amended (List.replicate 10 c100)).1 (by simp),
   (C4_amended (List.replicate 30 c100)).2.1 (by simp) (by simp),
   (C4_amended candles34).2.2 (by norm_num [candles34])⟩

namespace Signal

theorem jround_intCast (z : ℤ) : jround ((z : ℚ)) = z := by
  unfold jround
  rw [add_comm, Int.floor_add_int]
  norm_num

theorem foldl_agg (s : Scores) :
    ∀ (ks : List FactorKey) (a b : ℚ),
      ks.foldl
        (fun (acc : ℚ × ℚ) k =>
          match s.get k with
          | some v => (acc.1 + (v : ℚ) * factorWeight k, acc.2 + factorWeight k)
          | none => acc) (a, b) =
      (a + ((ks.filter (fun k => (s.get k).isSome)).map
            (fun k => (((s.get k).getD 0 : ℤ) : ℚ) * factorWeight k)).sum,
       b + ((ks.filter (fun k => (s.get k).isSome)).map factorWeight).sum) := by
  intro ks
  induction ks with
  | nil => intro a b; simp
  | cons k t ih =>
    intro a b
    rw [List.foldl_cons]
    cases h : s.get k with
    | none =>
      simp only [h]
      rw [ih]
      simp [List.filter_cons, h]
    | some v =>
      simp only [h]
      rw [ih]
      simp only [List.filter_cons, h, Option.isSome_some, if_pos, List.map_cons, List.sum_cons,
        Option.getD_some, Prod.mk.injEq]
      constructor <;> ring

theorem factorWeight_pos (k : FactorKey) : 0 < factorWeight k := by
  cases k <;> norm_num [factorWeight]

theorem aggregate_eq_spec (s : Scores) : aggregate s = specAggregate s := by
  unfold aggregate specAggregate presentKeys round2
  rw [foldl_agg]
  simp only [zero_add]
  by_cases hks : keyOrder.filter (fun k => (s.get k).isSome) = []
  · rw [hks]
    simp
  · have hw : ((keyOrder.filter (fun k => (s.get k).isSome)).map factorWeight).sum > 0 := by
      refine List.sum_pos _ ?_ ?_
      · intro x hx
        obtain ⟨k, _, hk⟩ := List.mem_map.1 hx
        rw [← hk]
        exact factorWeight_pos k
      · simpa using hks
    rw [if_neg (by positivity), if_neg hks]

theorem aggregate_of_no_factors (s : Scores) (h : presentKeys s = []) : aggregate s = 0 := by
  rw [aggregate_eq_spec]
  unfold specAggregate
  rw [if_pos h]

theorem mem_keyOrder (k : FactorKey) : k ∈ keyOrder := by
  cases k <;> simp [keyOrder]

theorem aggregate_single (s : Scores) (k : FactorKey) (v : ℤ) (hk : s.get k = some v)
    (hother : ∀ k2, k2 ≠ k → s.get k2 = none) : aggregate s = (v : ℚ) := by
  have hpres : keyOrder.filter (fun k2 => (s.get k2).isSome) = [k] := by
    have hmem : ∀ k2, (s.get k2).isSome = true ↔ k2 = k := by
      intro k2
      by_cases h : k2 = k
      · subst h
        simp [hk]
      · simp [hother k2 h, h]
    cases k <;>
      simp only [keyOrder, List.filter_cons, List.filter_nil] <;>
      simp [hmem]
  rw [aggregate_eq_spec]
  unfold specAggregate presentKeys
  rw [hpres]
  simp only [List.map_cons, List.map_nil, List.sum_cons, List.sum_nil, hk, Option.getD_some]
  rw [if_neg (by simp)]
  have hw := factorWeight_pos k
  have hsimp : ((v : ℚ) * factorWeight k + 0) / (factorWeight k + 0) = (v : ℚ) := by
    rw [add_zero, add_zero, mul_div_assoc, div_self (ne_of_gt hw), mul_one]
  rw [hsimp]
  unfold round2
  rw [show ((v : ℚ) * 100) = (((v * 100 : ℤ)) : ℚ) by push_cast; ring, jround_intCast]
  push_cast
  ring

end Signal

/-- Claim C5: the weight renormalization collapses to the identity when
exactly one factor is present — the aggregate equals that factor's raw
(integer) score — and in particular a funding rate of −0.002 with every other
factor absent aggregates to exactly +30. -/
theorem C5_single_factor :
    (∀ (s : Signal.Scores) (k : Signal.FactorKey) (v : ℤ), s.get k = some v →
      (∀ k2, k2 ≠ k → s.get k2 = none) → Signal.aggregate s = (v : ℚ)) ∧
    Signal.aggregate (Signal.scoreSignals sqrtZero { fundingRate := some (-0.002) }) = 30 := by
  constructor
  · exact Signal.aggregate_single
  · have hs : Signal.scoreSignals sqrtZero { fundingRate := some (-0.002) } =
        { funding := some 30 } := by
      norm_num [Signal.scoreSignals]
    rw [hs]
    have h30 : ({ funding := some 30 } : Signal.Scores).get .funding = some 30 := rfl
    have := Signal.aggregate_single { funding := some 30 } .funding 30 h30 ?_
    · rw [this]
      norm_num
    · intro k2 hk2
      cases k2 <;> simp_all [Signal.Scores.get]

/-- Witness for `C5_single_factor` at a concrete single-factor score map. -/
theorem C5_single_factor_witness :
    Signal.aggregate { funding := some 30 } = ((30 : ℤ) : ℚ) :=
  C5_single_factor.1 { funding := some 30 } .funding 30 rfl
    (by intro k2 hk2; cases k2 <;> simp_all [Signal.Scores.get])

/-- Claim C6: the aggregate equals the weighted mean Σ score·weight / Σ weight
over only the factors actually present, rounded to two decimal places (ties
rounding toward positive infinity as `Math.round` does), and equals 0 when no
factor is present. -/
theorem C6_weighted_mean (s : Signal.Scores) :
    Signal.aggregate s = Signal.specAggregate s ∧
    (Signal.presentKeys s = [] → Signal.aggregate s = 0) :=
  ⟨Signal.aggregate_eq_spec s, Signal.aggregate_of_no_factors s⟩

/-- Witness for `C6_weighted_mean` at the empty score map. -/
theorem C6_weighted_mean_witness :
    Signal.aggregate {} = Signal.specAggregate {} ∧ Signal.aggregate ({} : Signal.Scores) = 0 :=
  ⟨(C6_weighted_mean {}).1, (C6_weighted_mean {}).2 rfl⟩

/-- Claim C8: the signal time-series generator emits exactly one signal per
candle index ≥ 30 (in order: entry `j` has index `30 + j`), and each emitted
score is the raw combined factor score doubled and clamped to [-100, 100]. -/
theorem C8_signal_series (sqrt : ℚ → ℚ) (candles : List Candle) :
    (Backtest.generateSignals sqrt candles).length = candles.length - 30 ∧
    ∀ j, j < candles.length - 30 →
      (Backtest.generateSignals sqrt candles)[j]? =
        some ⟨30 + j, (candles.getD (30 + j) cDefault).ts,
          (candles.map (·.c)).getD (30 + j) 0,
          max (-100) (min 100 (Backtest.sigScoreRaw sqrt candles (30 + j) * 2))⟩ := by
  constructor
  · simp [Backtest.generateSignals]
  · intro j hj
    unfold Backtest.generateSignals
    rw [List.getElem?_map, List.getElem?_range hj]
    rfl

/-- Witness for `C8_signal_series`: 31 constant candles yield exactly one
signal, at index 30. -/
theorem C8_signal_series_witness :
    (Backtest.generateSignals sqrtZero (List.replicate 31 c100)).length = 1 ∧
    (Backtest.generateSignals sqrtZero (List.replicate 31 c100))[0]? =
      some ⟨30, ((List.replicate 31 c100).getD 30 cDefault).ts,
        ((List.replicate 31 c100).map (·.c)).getD 30 0,
        max (-100) (min 100 (Backtest.sigScoreRaw sqrtZero (List.replicate 31 c100) 30 * 2))⟩ := by
  refine ⟨by simpa using (C8_signal_series sqrtZero (List.replicate 31 c100)).1, ?_⟩
  have h := (C8_signal_series sqrtZero (List.replicate 31 c100)).2 0 (by norm_num)
  simpa using h

/-- Claim C9: with fewer than 50 candles the backtest entry point refuses
outright — it reports insufficient data and returns no result — instead of
running the simulation. -/
theorem C9_insufficient_data (sqrt : ℚ → ℚ) (candles : List Candle)
    (h : candles.length < 50) : Backtest.backtestMain sqrt candles = none := by
  unfold Backtest.backtestMain
  rw [if_pos h]

/-- Witness for `C9_insufficient_data` on a 10-candle series. -/
theorem C9_insufficient_data_witness :
    Backtest.backtestMain sqrtZero (List.replicate 10 c100) = none :=
  C9_insufficient_data sqrtZero (List.replicate 10 c100) (by norm_num)

/-- Claim C10: in the backtest's Bollinger series, an index whose trailing
20-bar window is constant (zero standard deviation) gets a defined entry with
all three bands equal to the common value and `percentB = 0.5` — the division
by the band width is guarded by `std > 0`.  Holds for every square-root
function mapping 0 to 0, as `Math.sqrt` does. -/
theorem C10_bollinger_zero_std (sq : ℚ → ℚ) (hs : sq 0 = 0) (closes : List ℚ) (i : ℕ) (v : ℚ)
    (h19 : 19 ≤ i) (hlen : i < closes.length)
    (hwin : ∀ x ∈ (closes.take (i + 1)).drop (i + 1 - 20), x = v) :
    (Backtest.calcBollingerSeries sq closes 20).getD i none = some ⟨v, v, v, 1/2⟩ := by
  unfold Backtest.calcBollingerSeries
  rw [List.getD_eq_getElem?_getD, List.getElem?_map,
    List.getElem?_range (show i < closes.length from hlen)]
  simp only [Option.map_some', Option.getD_some]
  rw [if_neg (by omega)]
  have hrep : (closes.take (i + 1)).drop (i + 1 - 20) = List.replicate 20 v := by
    refine List.eq_replicate_iff.2 ⟨?_, hwin⟩
    rw [List.length_drop, List.length_take]
    omega
  rw [hrep]
  have hsum : (List.replicate 20 v).sum = 20 * v := by
    rw [List.sum_replicate]
    simp [nsmul_eq_mul]
  rw [hsum]
  have hsma : 20 * v / ((20 : ℕ) : ℚ) = v := by
    norm_num
  rw [hsma]
  have hvar : ((List.replicate 20 v).map (fun c => (c - v) ^ 2)).sum / ((20 : ℕ) : ℚ) = 0 := by
    rw [List.map_replicate]
    rw [List.sum_replicate]
    simp
  rw [hvar, hs]
  rw [if_neg (by norm_num)]
  norm_num

/-- Witness for `C10_bollinger_zero_std` on 20 constant closes at 5. -/
theorem C10_bollinger_zero_std_witness :
    (Backtest.calcBollingerSeries sqrtZero (List.replicate 20 (5:ℚ)) 20).getD 19 none =
      some ⟨5, 5, 5, 1/2⟩ :=
  C10_bollinger_zero_std sqrtZero rfl (List.replicate 20 (5:ℚ)) 19 5 (by norm_num) (by norm_num)
    (by
      intro x hx
      rw [List.take_replicate] at hx
      exact List.eq_of_mem_replicate (List.mem_of_mem_drop hx))

namespace Signal

theorem foldl_macdStep_const_low :
    ∀ (n k : ℕ) (c : ℚ) (acc : List ℚ), k + n ≤ 24 →
      (List.enumFrom k (List.replicate n c)).foldl macdStep (c, c, acc) = (c, c, acc) := by
  intro n
  induction n with
  | zero => intro k c acc _; simp
  | succ n ih =>
    intro k c acc hk
    rw [List.replicate_succ]
    have hstep : macdStep (c, c, acc) (k, c) = (c, c, acc) := by
      simp [macdStep, show ¬(24 ≤ k) by omega]
      ring_nf
      constructor <;> ring
    simp only [List.enumFrom, List.foldl_cons, hstep]
    exact ih (k + 1) c acc (by omega)

theorem foldl_macdStep_const_high :
    ∀ (n k : ℕ) (c : ℚ) (acc : List ℚ), 24 ≤ k →
      (List.enumFrom k (List.replicate n c)).foldl macdStep (c, c, acc) =
        (c, c, acc ++ List.replicate n 0) := by
  intro n
  induction n with
  | zero => intro k c acc _; simp
  | succ n ih =>
    intro k c acc hk
    rw [List.replicate_succ]
    have hstep : macdStep (c, c, acc) (k, c) = (c, c, acc ++ [0]) := by
      simp [macdStep, show (24 ≤ k) by omega]
      refine ⟨by ring, by ring, by ring⟩
    simp only [List.enumFrom, List.foldl_cons, hstep]
    rw [ih (k + 1) c (acc ++ [0]) (by omega)]
    simp [List.replicate_succ]

theorem macdLineOf_rep33 (y x : ℚ) :
    macdLineOf (List.replicate 33 (100:ℚ) ++ [y, x]) =
      List.replicate 8 0 ++
        [y * (2/13) + 100 * (11/13) - (y * (2/27) + 100 * (25/27)),
         x * (2/13) + (y * (2/13) + 100 * (11/13)) * (11/13) -
           (x * (2/27) + (y * (2/27) + 100 * (25/27)) * (25/27))] := by
  have hsplit : List.replicate 33 (100:ℚ) ++ [y, x] =
      (100:ℚ) :: ((List.replicate 24 100 ++ List.replicate 8 100) ++ [y, x]) := by
    rw [show (33:ℕ) = 1 + (24 + 8) from rfl, List.replicate_add, List.replicate_add]
    simp
  rw [hsplit, macdLineOf_cons]
  have henum : (((List.replicate 24 (100:ℚ)) ++ List.replicate 8 100) ++ [y, x]).enum =
      (List.enumFrom 0 (List.replicate 24 (100:ℚ)) ++ List.enumFrom 24 (List.replicate 8 100)) ++
        List.enumFrom 32 [y, x] := by
    show List.enumFrom 0 (((List.replicate 24 (100:ℚ)) ++ List.replicate 8 100) ++ [y, x]) = _
    rw [List.enumFrom_append, List.enumFrom_append]
    norm_num
  rw [henum, List.foldl_append, List.foldl_append]
  rw [foldl_macdStep_const_low 24 0 100 [] (by norm_num)]
  rw [foldl_macdStep_const_high 8 24 100 [] (by norm_num)]
  have hfin : List.enumFrom 32 [y, x] = [(32, y), (33, x)] := by simp [List.enumFrom]
  rw [hfin]
  simp only [List.foldl_cons, List.foldl_nil, List.nil_append]
  norm_num [macdStep, List.append_assoc]

theorem calcEMA_rep8_two (d1 d2 : ℚ) :
    calcEMA (List.replicate 8 0 ++ [d1, d2]) 9 = d2 / 5 + d1 * 4 / 25 := by
  rw [show List.replicate 8 (0:ℚ) ++ [d1, d2] = 0 :: (List.replicate 7 0 ++ [d1, d2]) by
    rw [List.replicate_succ]; rfl]
  rw [calcEMA_cons, List.foldl_append, calcEMA_zeros]
  simp only [List.foldl_cons, List.foldl_nil]
  push_cast
  norm_num
  ring

theorem calcMACD_of_rep33 (y x d1 d2 : ℚ)
    (h1 : y * (2/13) + 100 * (11/13) - (y * (2/27) + 100 * (25/27)) = d1)
    (h2 : x * (2/13) + (y * (2/13) + 100 * (11/13)) * (11/13) -
      (x * (2/27) + (y * (2/27) + 100 * (25/27)) * (25/27)) = d2) :
    calcMACD (List.replicate 33 (Candle.mk 0 100 100 100 100 0) ++
        [Candle.mk 0 y y y y 0, Candle.mk 0 x x x x 0]) =
      ⟨d2, d2 / 5 + d1 * 4 / 25, d2 - (d2 / 5 + d1 * 4 / 25)⟩ := by
  have hmap : (List.replicate 33 (Candle.mk 0 100 100 100 100 0) ++
      [Candle.mk 0 y y y y 0, Candle.mk 0 x x x x 0]).map (·.c) =
      List.replicate 33 (100:ℚ) ++ [y, x] := by
    simp
  unfold calcMACD
  rw [if_neg (by simp)]
  rw [hmap, macdLineOf_rep33, h1, h2]
  rw [if_neg (by simp)]
  rw [calcEMA_rep8_two]
  have hlast : (List.replicate 8 (0:ℚ) ++ [d1, d2]).getLast? = some d2 := by
    rw [show [d1, d2] = [d1] ++ [d2] from rfl, ← List.append_assoc, List.getLast?_concat]
  rw [hlast]
  rfl

end Signal

/-- Candle with all price fields equal to `x`, used by boundary inputs. -/
def mkC (x : ℚ) : Candle := ⟨0, x, x, x, x, 0⟩

/-- Square-root interpretation used by the Bollinger boundary evaluations: it
agrees with the real square root at every value those evaluations query it on
(4 and 100; any other queried variance yields a zero band width, which the
guarded code paths tolerate). -/
def sqrtW : ℚ → ℚ := fun q => if q = 4 then 2 else if q = 100 then 10 else 0

/-- 15 candles whose 14 close-to-close changes are one gain `g`, one loss `l`
and twelve zeros, so the RSI is exactly `100 - 100/(1 + g/l)`. -/
def rsiB (g l : ℚ) : List Candle :=
  [mkC 100, mkC (100 + g), mkC (100 + g - l)] ++ List.replicate 12 (mkC (100 + g - l))

/-- 20 closes (16 at 100, 4 at 105): mean 101, variance 4, upper band 105 =
last close, i.e. percentB exactly 1. -/
def bbPB1 : List Candle := List.replicate 16 (mkC 100) ++ List.replicate 4 (mkC 105)

/-- 20 closes (16 at 100, 4 at 95): mean 99, variance 4, lower band 95 = last
close, i.e. percentB exactly 0. -/
def bbPB0 : List Candle := List.replicate 16 (mkC 100) ++ List.replicate 4 (mkC 95)

/-- 20 closes with mean 100 and variance 100 whose last close 112 sits at
mean + 1.2 standard deviations, i.e. percentB exactly 0.8. -/
def bbPB08 : List Candle :=
  [mkC 130, mkC 70, mkC 104, mkC 96] ++ List.replicate 6 (mkC 98) ++
    List.replicate 9 (mkC 100) ++ [mkC 112]

/-- 20 closes with mean 100 and variance 100 whose last close 88 sits at
mean − 1.2 standard deviations, i.e. percentB exactly 0.2. -/
def bbPB02 : List Candle :=
  [mkC 70, mkC 130, mkC 96, mkC 104] ++ List.replicate 6 (mkC 102) ++
    List.replicate 9 (mkC 100) ++ [mkC 88]

/-- 30 constant candles: MACD histogram and MACD line both exactly 0. -/
def macdConst30 : List Candle := List.replicate 30 (mkC 100)

/-- 35 candles (33 at 100, then 101 and 243803/2457): the final close is
chosen so the MACD line ends exactly at 0 while the signal is positive, i.e.
macd = 0 with histogram < 0. -/
def macdHistNeg : List Candle := List.replicate 33 (mkC 100) ++ [mkC 101, mkC (243803/2457)]

/-- 35 candles (33 at 100, then 99 and 247597/2457): macd = 0 with
histogram > 0. -/
def macdHistPos : List Candle := List.replicate 33 (mkC 100) ++ [mkC 99, mkC (247597/2457)]

/-- 35 candles (33 at 100, then 105 and 238672/2457): the final close is
chosen so the MACD value equals its signal exactly, i.e. histogram = 0 with
macd > 0. -/
def macdZeroHist : List Candle := List.replicate 33 (mkC 100) ++ [mkC 105, mkC (238672/2457)]

theorem len_macdConst30 : macdConst30.length = 30 := by simp [macdConst30]

theorem len_macdHistNeg : macdHistNeg.length = 35 := by simp [macdHistNeg]

theorem len_macdHistPos : macdHistPos.length = 35 := by simp [macdHistPos]

theorem len_macdZeroHist : macdZeroHist.length = 35 := by simp [macdZeroHist]

theorem calcMACD_macdConst30 : Signal.calcMACD macdConst30 = ⟨0, 0, 0⟩ := by
  have hmap : macdConst30.map (·.c) = List.replicate 30 (100:ℚ) := by
    simp [macdConst30, mkC]
  unfold Signal.calcMACD
  rw [if_neg (by simp [len_macdConst30])]
  rw [hmap]
  have hline : Signal.macdLineOf (List.replicate 30 (100:ℚ)) = List.replicate 5 0 := by
    rw [show (30:ℕ) = 1 + (24 + 5) from rfl, List.replicate_add, List.replicate_add]
    rw [show List.replicate 1 (100:ℚ) ++ (List.replicate 24 100 ++ List.replicate 5 100) =
      100 :: (List.replicate 24 100 ++ List.replicate 5 100) from rfl]
    rw [Signal.macdLineOf_cons]
    have henum : ((List.replicate 24 (100:ℚ)) ++ List.replicate 5 100).enum =
        List.enumFrom 0 (List.replicate 24 (100:ℚ)) ++ List.enumFrom 24 (List.replicate 5 100) := by
      show List.enumFrom 0 ((List.replicate 24 (100:ℚ)) ++ List.replicate 5 100) = _
      rw [List.enumFrom_append]
      norm_num
    rw [henum, List.foldl_append]
    rw [Signal.foldl_macdStep_const_low 24 0 100 [] (by norm_num)]
    rw [Signal.foldl_macdStep_const_high 5 24 100 [] (by norm_num)]
    simp
  rw [hline]
  rw [if_pos (by simp)]
  simp

theorem calcMACD_macdHistNeg : Signal.calcMACD macdHistNeg = ⟨0, 112/8775, -112/8775⟩ := by
  have h := Signal.calcMACD_of_rep33 101 (243803/2457) (28/351) 0 (by norm_num) (by norm_num)
  rw [show macdHistNeg = List.replicate 33 (Candle.mk 0 100 100 100 100 0) ++
    [Candle.mk 0 101 101 101 101 0,
     Candle.mk 0 (243803/2457) (243803/2457) (243803/2457) (243803/2457) 0] from rfl, h]
  norm_num

theorem calcMACD_macdHistPos : Signal.calcMACD macdHistPos = ⟨0, -112/8775, 112/8775⟩ := by
  have h := Signal.calcMACD_of_rep33 99 (247597/2457) (-28/351) 0 (by norm_num) (by norm_num)
  rw [show macdHistPos = List.replicate 33 (Candle.mk 0 100 100 100 100 0) ++
    [Candle.mk 0 99 99 99 99 0,
     Candle.mk 0 (247597/2457) (247597/2457) (247597/2457) (247597/2457) 0] from rfl, h]
  norm_num

theorem calcMACD_macdZeroHist : Signal.calcMACD macdZeroHist = ⟨28/351, 28/351, 0⟩ := by
  have h := Signal.calcMACD_of_rep33 105 (238672/2457) (140/351) (28/351)
    (by norm_num) (by norm_num)
  rw [show macdZeroHist = List.replicate 33 (Candle.mk 0 100 100 100 100 0) ++
    [Candle.mk 0 105 105 105 105 0,
     Candle.mk 0 (238672/2457) (238672/2457) (238672/2457) (238672/2457) 0] from rfl, h]
  norm_num


/-- Claim C7: for every factor, values lying exactly on a band boundary fall
into the band dictated by the documented strict (resp. non-strict) inequality.
Covered per factor: funding rate at all four boundaries (in particular exactly
−0.001 scores +15, not +30); fear-greed at all six inclusive boundaries;
long/short ratio at all four band boundaries and at a ratio change of exactly
±0.3 (no ±5 adjustment, per the strict `> 0.3`); funding-rate trend at equal
averages (score 0, both signs), at a falling trend with recent average exactly
0 (+10, not +20), and at a rising trend with recent average exactly 0.0008
(−10, not −20); liquidation skew at long shares exactly 0.8, 0.6, 0.2 and 0.4;
RSI at the computed values exactly 20, 30, 45, 80, 70 and 55 (inputs built so
Wilder's ratio is exact); MACD at histogram exactly 0 (score 0 whether the
MACD value is 0 or positive) and at a MACD value exactly 0 with nonzero
histogram (±10, not ±15); Bollinger %B at exactly 0, 0.2, 1 and 0.8 (inputs
with perfect-square variance, the square root instantiated exactly). -/
theorem C7_band_boundaries :
    (Signal.scoreSignals sqrtZero { fundingRate := some (-0.001) }).funding = some 15 ∧
    (Signal.scoreSignals sqrtZero { fundingRate := some (-0.0003) }).funding = some 0 ∧
    (Signal.scoreSignals sqrtZero { fundingRate := some 0.0005 }).funding = some (-15) ∧
    (Signal.scoreSignals sqrtZero { fundingRate := some 0.001 }).funding = some (-30) ∧
    (Signal.scoreSignals sqrtZero { fearGreed := some 10 }).fearGreed = some 30 ∧
    (Signal.scoreSignals sqrtZero { fearGreed := some 25 }).fearGreed = some 15 ∧
    (Signal.scoreSignals sqrtZero { fearGreed := some 45 }).fearGreed = some 5 ∧
    (Signal.scoreSignals sqrtZero { fearGreed := some 55 }).fearGreed = some 0 ∧
    (Signal.scoreSignals sqrtZero { fearGreed := some 75 }).fearGreed = some (-5) ∧
    (Signal.scoreSignals sqrtZero { fearGreed := some 90 }).fearGreed = some (-15) ∧
    (Signal.scoreSignals sqrtZero { longShortCurrent := some 3.5 }).longShort = some (-10) ∧
    (Signal.scoreSignals sqrtZero { longShortCurrent := some 2.8 }).longShort = some 0 ∧
    (Signal.scoreSignals sqrtZero { longShortCurrent := some 1.2 }).longShort = some 10 ∧
    (Signal.scoreSignals sqrtZero { longShortCurrent := some 1.8 }).longShort = some 0 ∧
    (Signal.scoreSignals sqrtZero
      { longShortCurrent := some 2, longShortPrev := some 1.7 }).longShort = some 0 ∧
    (Signal.scoreSignals sqrtZero
      { longShortCurrent := some 2, longShortPrev := some 2.3 }).longShort = some 0 ∧
    (Signal.scoreSignals sqrtZero
      { fundingHistory := some [0.0005, 0.0005, 0.0005, 0.0005] }).fundingTrend = some 0 ∧
    (Signal.scoreSignals sqrtZero
      { fundingHistory := some [-0.002, -0.002, -0.002, -0.002] }).fundingTrend = some 0 ∧
    (Signal.scoreSignals sqrtZero
      { fundingHistory := some [0, 0, 0, 0.0003] }).fundingTrend = some 10 ∧
    (Signal.scoreSignals sqrtZero
      { fundingHistory := some [0.0008, 0.0008, 0.0008, 0] }).fundingTrend = some (-10) ∧
    (Signal.scoreSignals sqrtZero { liqLong := some 4, liqShort := some 1 }).liquidation = some 5 ∧
    (Signal.scoreSignals sqrtZero { liqLong := some 3, liqShort := some 2 }).liquidation = some 0 ∧
    (Signal.scoreSignals sqrtZero
      { liqLong := some 1, liqShort := some 4 }).liquidation = some (-5) ∧
    (Signal.scoreSignals sqrtZero { liqLong := some 2, liqShort := some 3 }).liquidation = some 0 ∧
    (Signal.scoreSignals sqrtW { candles := some (rsiB 1 4) }).rsi = some 15 ∧
    (Signal.scoreSignals sqrtW { candles := some (rsiB 3 7) }).rsi = some 5 ∧
    (Signal.scoreSignals sqrtW { candles := some (rsiB 9 11) }).rsi = some 0 ∧
    (Signal.scoreSignals sqrtW { candles := some (rsiB 4 1) }).rsi = some (-15) ∧
    (Signal.scoreSignals sqrtW { candles := some (rsiB 7 3) }).rsi = some (-5) ∧
    (Signal.scoreSignals sqrtW { candles := some (rsiB 11 9) }).rsi = some 0 ∧
    (Signal.scoreSignals sqrtW { candles := some macdConst30 }).macd = some 0 ∧
    (Signal.scoreSignals sqrtW { candles := some macdHistNeg }).macd = some (-10) ∧
    (Signal.scoreSignals sqrtW { candles := some macdHistPos }).macd = some 10 ∧
    (Signal.scoreSignals sqrtW { candles := some macdZeroHist }).macd = some 0 ∧
    (Signal.scoreSignals sqrtW { candles := some bbPB0 }).bollinger = some 10 ∧
    (Signal.scoreSignals sqrtW { candles := some bbPB02 }).bollinger = some 0 ∧
    (Signal.scoreSignals sqrtW { candles := some bbPB1 }).bollinger = some (-10) ∧
    (Signal.scoreSignals sqrtW { candles := some bbPB08 }).bollinger = some 0 := by
  refine ⟨?_, ?_, ?_, ?_, ?_, ?_, ?_, ?_, ?_, ?_, ?_, ?_, ?_, ?_, ?_, ?_, ?_, ?_, ?_, ?_,
    ?_, ?_, ?_, ?_, ?_, ?_, ?_, ?_, ?_, ?_, ?_, ?_, ?_, ?_, ?_, ?_, ?_, ?_⟩
  · norm_num [Signal.scoreSignals]
  · norm_num [Signal.scoreSignals]
  · norm_num [Signal.scoreSignals]
  · norm_num [Signal.scoreSignals]
  · norm_num [Signal.scoreSignals]
  · norm_num [Signal.scoreSignals]
  · norm_num [Signal.scoreSignals]
  · norm_num [Signal.scoreSignals]
  · norm_num [Signal.scoreSignals]
  · norm_num [Signal.scoreSignals]
  · norm_num [Signal.scoreSignals]
  · norm_num [Signal.scoreSignals]
  · norm_num [Signal.scoreSignals]
  · norm_num [Signal.scoreSignals]
  · norm_num [Signal.scoreSignals]
    rw [abs_of_pos (by norm_num : (0:ℚ) < 3/10)]
  · norm_num [Signal.scoreSignals]
    rw [abs_of_pos (by norm_num : (0:ℚ) < 3/10)]
  · norm_num [Signal.scoreSignals]
  · norm_num [Signal.scoreSignals]
  · norm_num [Signal.scoreSignals]
  · norm_num [Signal.scoreSignals]
  · norm_num [Signal.scoreSignals]
  · norm_num [Signal.scoreSignals]
  · norm_num [Signal.scoreSignals]
  · norm_num [Signal.scoreSignals]
  · norm_num [Signal.scoreSignals, Signal.calcRSI, rsiStep, rsiVal, rsiB, mkC,
      List.replicate, List.zipWith, List.foldl]
  · norm_num [Signal.scoreSignals, Signal.calcRSI, rsiStep, rsiVal, rsiB, mkC,
      List.replicate, List.zipWith, List.foldl]
  · norm_num [Signal.scoreSignals, Signal.calcRSI, rsiStep, rsiVal, rsiB, mkC,
      List.replicate, List.zipWith, List.foldl]
  · norm_num [Signal.scoreSignals, Signal.calcRSI, rsiStep, rsiVal, rsiB, mkC,
      List.replicate, List.zipWith, List.foldl]
  · norm_num [Signal.scoreSignals, Signal.calcRSI, rsiStep, rsiVal, rsiB, mkC,
      List.replicate, List.zipWith, List.foldl]
  · norm_num [Signal.scoreSignals, Signal.calcRSI, rsiStep, rsiVal, rsiB, mkC,
      List.replicate, List.zipWith, List.foldl]
  · norm_num [Signal.scoreSignals, calcMACD_macdConst30, len_macdConst30]
  · norm_num [Signal.scoreSignals, calcMACD_macdHistNeg, len_macdHistNeg]
  · norm_num [Signal.scoreSignals, calcMACD_macdHistPos, len_macdHistPos]
  · norm_num [Signal.scoreSignals, calcMACD_macdZeroHist, len_macdZeroHist]
  · norm_num [Signal.scoreSignals, Signal.calcBollinger, sqrtW, bbPB0, mkC, List.replicate]
  · norm_num [Signal.scoreSignals, Signal.calcBollinger, sqrtW, bbPB02, mkC, List.replicate]
  · norm_num [Signal.scoreSignals, Signal.calcBollinger, sqrtW, bbPB1, mkC, List.replicate]
  · norm_num [Signal.scoreSignals, Signal.calcBollinger, sqrtW, bbPB08, mkC, List.replicate]
